import Mathlib

/-!
Verification of the structural pattern-matching engine described by the
repository's specification and exercised by the `match`/`case` blocks of
`src/old_code/grammar/examples/Python311_examples.py` (`analyze_data`,
`complex_pattern_matching`, `process_value`).  The engine itself (Value
model, Pattern model, Matcher, Case Selector) is not present under `src/`
— only its exercisers are — so it is modelled from the specification.
-/

set_option maxHeartbeats 1000000

/-- Modelled from the spec: the runtime kinds of subject values, used by
typed-capture patterns (spec section 3, `TypedCapture(expected_kind, name)`).
Scalar kinds are int, float, bool, string, none; compound kinds are
sequence, mapping and record. -/
inductive VKind where
  | int | float | bool | str | none | seq | map | record
deriving DecidableEq, Repr

/-- Modelled from the spec: scalar payloads of the Value model
(spec section 3, `Scalar(kind: {int, float, bool, string, none}, payload)`).
The float payload is modelled as a rational number, which suffices for the
equality and order comparisons the engine performs. -/
inductive Scalar where
  | int (n : Int)
  | float (q : Rat)
  | bool (b : Bool)
  | str (s : String)
  | none
deriving DecidableEq, Repr

/-- Modelled from the spec: the Value model, a tagged union of scalars,
sequences, mappings (ordered unique-key pair lists) and tagged records
(spec section 3). -/
inductive Value where
  | scalar (s : Scalar)
  | seq (xs : List Value)
  | map (pairs : List (Scalar × Value))
  | record (tag : String) (fields : List (String × Value))

/-- Modelled from the spec: the runtime kind of a value, dispatched on the
explicit tag (spec section 9: "matching dispatches on the explicit tag"). -/
def Value.kind : Value → VKind
  | .scalar (.int _) => .int
  | .scalar (.float _) => .float
  | .scalar (.bool _) => .bool
  | .scalar (.str _) => .str
  | .scalar .none => .none
  | .seq _ => .seq
  | .map _ => .map
  | .record _ _ => .record

/-- Modelled from the spec: scalar structural equality — kind and payload
equal — with the single cross-kind exception that int and float compare by
equal magnitude (spec section 4.1, `Literal` rule: "0 equals 0.0").
A bool never equals an int, there being no coercion between those kinds. -/
def scalarEq : Scalar → Scalar → Bool
  | .int m, .int n => m == n
  | .float p, .float q => p == q
  | .int m, .float q => ((m : Rat) == q)
  | .float q, .int m => (q == (m : Rat))
  | .bool a, .bool b => a == b
  | .str a, .str b => a == b
  | .none, .none => true
  | _, _ => false

mutual

/-- Modelled from the spec: structural equality of values used by `Literal`
pattern matching (spec section 4.1): scalars compare by `scalarEq`,
sequences pointwise, mappings pairwise in order, records by tag and fields
pairwise. -/
def valueEq : Value → Value → Bool
  | .scalar a, .scalar b => scalarEq a b
  | .seq xs, .seq ys => valueListEq xs ys
  | .map ps, .map qs => pairListEq ps qs
  | .record t fs, .record u gs => t == u && fieldListEq fs gs
  | _, _ => false

/-- Pointwise equality of value lists. -/
def valueListEq : List Value → List Value → Bool
  | [], [] => true
  | x :: xs, y :: ys => valueEq x y && valueListEq xs ys
  | _, _ => false

/-- Pairwise equality of mapping pair lists (keys by `scalarEq`). -/
def pairListEq : List (Scalar × Value) → List (Scalar × Value) → Bool
  | [], [] => true
  | (k1, v1) :: ps, (k2, v2) :: qs => scalarEq k1 k2 && valueEq v1 v2 && pairListEq ps qs
  | _, _ => false

/-- Pairwise equality of record field lists. -/
def fieldListEq : List (String × Value) → List (String × Value) → Bool
  | [], [] => true
  | (n1, v1) :: fs, (n2, v2) :: gs => n1 == n2 && valueEq v1 v2 && fieldListEq fs gs
  | _, _ => false

end

/-- Modelled from the spec: the Pattern model (spec section 3), a tagged
union of literal, wildcard, capture, typed capture, sequence
(head patterns, optional rest capture, tail patterns), mapping
(required key patterns, optional rest capture), record (tag and field
patterns), ordered alternation and as-patterns. -/
inductive Pattern where
  | lit (v : Value)
  | wildcard
  | capture (n : String)
  | typedCapture (k : VKind) (n : String)
  | seq (head : List Pattern) (rest : Option String) (tail : List Pattern)
  | map (required : List (Scalar × Pattern)) (rest : Option String)
  | record (tag : String) (fields : List (String × Pattern))
  | orP (alts : List Pattern)
  | asP (inner : Pattern) (n : String)

/-- Modelled from the spec: a binding set produced by a successful
structural match, a mapping from names to values (spec section 4.1). -/
abbrev Bindings : Type := List (String × Value)

/-- Literal key lookup in a mapping value's pair list, using scalar
structural equality on keys (spec section 3: "literal key lookup"). -/
def lookupKey (k : Scalar) : List (Scalar × Value) → Option Value
  | [] => Option.none
  | (k2, w) :: ps => if scalarEq k2 k then Option.some w else lookupKey k ps

/-- Field lookup in a record value's field list, by field name. -/
def lookupField (n : String) : List (String × Value) → Option Value
  | [] => Option.none
  | (n2, w) :: fs => if n2 == n then Option.some w else lookupField n fs

/-- Lookup of a bound name in a binding set. -/
def lookupBind (n : String) : Bindings → Option Value
  | [] => Option.none
  | (n2, w) :: bs => if n2 == n then Option.some w else lookupBind n bs

/-- Whether a subject mapping key occurs in the required key set of a
mapping pattern (spec section 4.1, `Mapping` rest-capture rule). -/
def keyMem (k : Scalar) (required : List (Scalar × Pattern)) : Bool :=
  required.any (fun kp => scalarEq kp.1 k)

/-- Modelled from the spec: the length admissibility test for sequence
patterns (spec section 4.1, `Sequence` rule): without a rest capture the
subject's length must equal exactly the number of element patterns; with a
rest capture it must be at least that number. -/
def seqLenOk : Option String → Nat → Nat → Nat → Bool
  | Option.none, hl, tl, n => n == hl + tl
  | Option.some _, hl, tl, n => decide (hl + tl ≤ n)

mutual

/-- Modelled from the spec: the Matcher (spec section 4.1),
`match(pattern, value) -> MatchResult`, here `Option Bindings` with
`some b` for `Matched(b)` and `none` for `NoMatch`.  Each arm follows the
spec's algorithm for its pattern variant. -/
def matchP : Pattern → Value → Option Bindings
  | .lit L, v => if valueEq v L then Option.some [] else Option.none
  | .wildcard, _ => Option.some []
  | .capture n, v => Option.some [(n, v)]
  | .typedCapture k n, v =>
      if Value.kind v = k then Option.some [(n, v)] else Option.none
  | .seq head rest tail, .seq xs =>
      if seqLenOk rest head.length tail.length xs.length then
        match matchZip head (xs.take head.length),
              matchZip tail (xs.drop (xs.length - tail.length)) with
        | Option.some hb, Option.some tb =>
            match rest with
            | Option.none => Option.some (hb ++ tb)
            | Option.some r =>
                Option.some (hb ++
                  [(r, Value.seq ((xs.drop head.length).take
                        (xs.length - (head.length + tail.length))))] ++ tb)
        | _, _ => Option.none
      else Option.none
  | .seq _ _ _, _ => Option.none
  | .map required rest, .map pairs =>
      match matchMapReq required pairs with
      | Option.none => Option.none
      | Option.some b =>
          match rest with
          | Option.none => Option.some b
          | Option.some r =>
              Option.some (b ++
                [(r, Value.map (pairs.filter (fun kv => !keyMem kv.1 required)))])
  | .map _ _, _ => Option.none
  | .record tag fps, .record t fvs =>
      if t == tag then matchRecFields fps fvs else Option.none
  | .record _ _, _ => Option.none
  | .orP alts, v => matchFirst alts v
  | .asP inner n, v =>
      match matchP inner v with
      | Option.some b => Option.some (b ++ [(n, v)])
      | Option.none => Option.none

/-- Pairwise matching of element patterns against value elements, merging
bindings in order and failing fast on the first mismatch (spec section 4.1,
`Sequence` rule). -/
def matchZip : List Pattern → List Value → Option Bindings
  | [], _ => Option.some []
  | _ :: _, [] => Option.none
  | p :: ps, v :: vs =>
      match matchP p v with
      | Option.some b =>
          match matchZip ps vs with
          | Option.some b2 => Option.some (b ++ b2)
          | Option.none => Option.none
      | Option.none => Option.none

/-- Required-key matching for mapping patterns: every required key must be
present in the subject and its sub-pattern must match, short-circuiting on
the first missing key or sub-match failure (spec section 4.1). -/
def matchMapReq : List (Scalar × Pattern) → List (Scalar × Value) → Option Bindings
  | [], _ => Option.some []
  | (k, sp) :: rs, pairs =>
      match lookupKey k pairs with
      | Option.none => Option.none
      | Option.some w =>
          match matchP sp w with
          | Option.some b =>
              match matchMapReq rs pairs with
              | Option.some b2 => Option.some (b ++ b2)
              | Option.none => Option.none
          | Option.none => Option.none

/-- Field matching for record patterns: every named field must be present
and its sub-pattern must match; unspecified fields are ignored
(spec section 4.1, `Record` rule). -/
def matchRecFields : List (String × Pattern) → List (String × Value) → Option Bindings
  | [], _ => Option.some []
  | (fn, sp) :: rs, fvs =>
      match lookupField fn fvs with
      | Option.none => Option.none
      | Option.some w =>
          match matchP sp w with
          | Option.some b =>
              match matchRecFields rs fvs with
              | Option.some b2 => Option.some (b ++ b2)
              | Option.none => Option.none
          | Option.none => Option.none

/-- Ordered alternation: try alternatives in listed order and return the
first `Matched` (spec section 4.1, `Or` rule). -/
def matchFirst : List Pattern → Value → Option Bindings
  | [], _ => Option.none
  | p :: ps, v =>
      match matchP p v with
      | Option.some b => Option.some b
      | Option.none => matchFirst ps v

end

/-- Modelled from the spec: a Case, a pattern paired with an optional
opaque guard reference (spec section 3, `Case`); the guard reference type
is a parameter, never inspected by the engine. -/
structure Case (γ : Type) where
  pattern : Pattern
  guard : Option γ

/-- Modelled from the spec: the result of `select` (spec section 4.2),
either `Selected(index, bindings)` or `Exhausted`. -/
inductive SelectResult where
  | selected (index : Nat) (bindings : Bindings)
  | exhausted

/-- Shift the selected index by one when the scan recursed past the head
case; errors and exhaustion pass through unchanged. -/
def bumpSel {ε : Type} : Except ε SelectResult → Except ε SelectResult
  | Except.ok (SelectResult.selected i b) => Except.ok (SelectResult.selected (i + 1) b)
  | r => r

/-- Modelled from the spec: the Case Selector (spec sections 4.2 and 7).
It scans the ordered case list; a structural `NoMatch` continues the scan,
a structural match with no guard selects immediately, a guard returning
true selects, a guard returning false continues the scan to later cases,
and a guard evaluation failure propagates to the caller as `Except.error`
instead of being treated as guard-false. -/
def select {γ ε : Type} (ev : γ → Bindings → Except ε Bool) :
    List (Case γ) → Value → Except ε SelectResult
  | [], _ => Except.ok SelectResult.exhausted
  | c :: cs, v =>
      match matchP c.pattern v with
      | Option.none => bumpSel (select ev cs v)
      | Option.some b =>
          match c.guard with
          | Option.none => Except.ok (SelectResult.selected 0 b)
          | Option.some g =>
              match ev g b with
              | Except.error e => Except.error e
              | Except.ok true => Except.ok (SelectResult.selected 0 b)
              | Except.ok false => bumpSel (select ev cs v)

/-- A case accepts a subject with bindings `b` when it structurally
matches producing `b` and either has no guard or its guard returns true
(spec section 4.2). -/
def caseAccepts {γ ε : Type} (ev : γ → Bindings → Except ε Bool)
    (v : Value) (c : Case γ) (b : Bindings) : Prop :=
  matchP c.pattern v = Option.some b ∧
    (c.guard = Option.none ∨
      ∃ g, c.guard = Option.some g ∧ ev g b = Except.ok true)

/-- A case falls through when it fails to match structurally, or matches
but its guard returns false (spec section 4.2: guard rejection does not
stop the scan). -/
def caseFalls {γ ε : Type} (ev : γ → Bindings → Except ε Bool)
    (v : Value) (c : Case γ) : Prop :=
  matchP c.pattern v = Option.none ∨
    ∃ b g, matchP c.pattern v = Option.some b ∧ c.guard = Option.some g ∧
      ev g b = Except.ok false

/-- The two guard expressions of `analyze_data`
(src/old_code/grammar/examples/Python311_examples.py lines 126 and 150):
`neg` is the guard `x < 0`, `big` is the guard `v > 100`. -/
inductive AdGuard where
  | neg
  | big
deriving DecidableEq, Repr

/-- Guard evaluator for `analyze_data`'s guards.  Order comparison of a
subject with an integer is defined for int, float and bool scalars (a bool
compares as 0 or 1, so `x < 0` and `v > 100` are false for it) and fails
for every other kind of value — a string, none, sequence, mapping or
record cannot be order-compared with an integer, so evaluating the guard
raises, which the model reports as `Except.error` carrying the guard. -/
def adGuardEval : AdGuard → Bindings → Except AdGuard Bool
  | AdGuard.neg, b =>
      match lookupBind "x" b with
      | Option.some (Value.scalar (Scalar.int n)) => Except.ok (decide (n < 0))
      | Option.some (Value.scalar (Scalar.float q)) => Except.ok (decide (q < 0))
      | Option.some (Value.scalar (Scalar.bool _)) => Except.ok false
      | _ => Except.error AdGuard.neg
  | AdGuard.big, b =>
      match lookupBind "v" b with
      | Option.some (Value.scalar (Scalar.int n)) => Except.ok (decide (100 < n))
      | Option.some (Value.scalar (Scalar.float q)) => Except.ok (decide (100 < q))
      | Option.some (Value.scalar (Scalar.bool _)) => Except.ok false
      | _ => Except.error AdGuard.big

/-- The ordered case list of `analyze_data`
(src/old_code/grammar/examples/Python311_examples.py lines 120-166),
translated case by case into the Pattern model: literal `0`; guarded
capture `x if x < 0`; the sequence patterns `[]`, `[x]`, `[x, y]`,
`[x, *rest]`; the mapping patterns for `"user"` and `"admin"`; the guarded
and unguarded `Builder(value=v)` class patterns; the or-pattern
`"start" | "begin" | "init"`; the as-pattern
`{"data": list(items)} as full_dict`; and the wildcard. -/
def adCases : List (Case AdGuard) :=
  [ ⟨Pattern.lit (Value.scalar (Scalar.int 0)), Option.none⟩,
    ⟨Pattern.capture "x", Option.some AdGuard.neg⟩,
    ⟨Pattern.seq [] Option.none [], Option.none⟩,
    ⟨Pattern.seq [Pattern.capture "x"] Option.none [], Option.none⟩,
    ⟨Pattern.seq [Pattern.capture "x", Pattern.capture "y"] Option.none [], Option.none⟩,
    ⟨Pattern.seq [Pattern.capture "x"] (Option.some "rest") [], Option.none⟩,
    ⟨Pattern.map [(Scalar.str "type", Pattern.lit (Value.scalar (Scalar.str "user"))),
        (Scalar.str "name", Pattern.typedCapture VKind.str "name")] Option.none, Option.none⟩,
    ⟨Pattern.map [(Scalar.str "type", Pattern.lit (Value.scalar (Scalar.str "admin"))),
        (Scalar.str "permissions", Pattern.typedCapture VKind.seq "perms")] Option.none,
      Option.none⟩,
    ⟨Pattern.record "Builder" [("value", Pattern.capture "v")], Option.some AdGuard.big⟩,
    ⟨Pattern.record "Builder" [("value", Pattern.capture "v")], Option.none⟩,
    ⟨Pattern.orP [Pattern.lit (Value.scalar (Scalar.str "start")),
        Pattern.lit (Value.scalar (Scalar.str "begin")),
        Pattern.lit (Value.scalar (Scalar.str "init"))], Option.none⟩,
    ⟨Pattern.asP (Pattern.map [(Scalar.str "data", Pattern.typedCapture VKind.seq "items")]
        Option.none) "full_dict", Option.none⟩,
    ⟨Pattern.wildcard, Option.none⟩ ]

/-- The `analyze_data` match statement as a select over `adCases` with its
guard evaluator (src/old_code/grammar/examples/Python311_examples.py,
`analyze_data`). -/
def analyzeData (v : Value) : Except AdGuard SelectResult :=
  select adGuardEval adCases v

/-- Guard evaluator for the spec's section 8 fallthrough example: the one
guard is `x > 100` over the binding of `x`, failing on a non-integer. -/
def gtGuardEval : Unit → Bindings → Except Unit Bool := fun _ b =>
  match lookupBind "x" b with
  | Option.some (Value.scalar (Scalar.int n)) => Except.ok (decide (100 < n))
  | _ => Except.error ()

/-- Inversion of `bumpSel` on a selected result: the index was one smaller
before the shift. -/
lemma bumpSel_eq_selected {ε : Type} (r : Except ε SelectResult) (i : Nat) (b : Bindings) :
    bumpSel r = Except.ok (SelectResult.selected i b) ↔
      ∃ i0, i = i0 + 1 ∧ r = Except.ok (SelectResult.selected i0 b) := by
  cases r with
  | error e => simp [bumpSel]
  | ok s =>
      cases s with
      | selected i0 b0 =>
          simp only [bumpSel, Except.ok.injEq, SelectResult.selected.injEq]
          constructor
          · rintro ⟨rfl, rfl⟩
            exact ⟨i0, rfl, rfl, rfl⟩
          · rintro ⟨i1, rfl, rfl, rfl⟩
            exact ⟨rfl, rfl⟩
      | exhausted => simp [bumpSel]

/-- Characterisation of the Case Selector: `select` returns
`Selected(i, b)` exactly when case `i` accepts the subject with bindings
`b` and every earlier case falls through (no structural match, or a guard
that returned false). -/
lemma select_selected_iff {γ ε : Type} (ev : γ → Bindings → Except ε Bool)
    (cl : List (Case γ)) (v : Value) (i : Nat) (b : Bindings) :
    select ev cl v = Except.ok (SelectResult.selected i b) ↔
      ((∃ ci, cl[i]? = Option.some ci ∧ caseAccepts ev v ci b) ∧
        ∀ j, j < i → ∀ cj, cl[j]? = Option.some cj → caseFalls ev v cj) := by
  induction cl generalizing i with
  | nil => simp [select]
  | cons c cs ih =>
      rcases hm : matchP c.pattern v with _ | b0
      · rw [show select ev (c :: cs) v = bumpSel (select ev cs v) by
          simp only [select, hm]]
        rw [bumpSel_eq_selected]
        constructor
        · rintro ⟨i0, rfl, hsel⟩
          rcases (ih i0).mp hsel with ⟨⟨ci, hci, hacc⟩, hfall⟩
          refine ⟨⟨ci, by simpa using hci, hacc⟩, ?_⟩
          intro j hj cj hcj
          cases j with
          | zero =>
              simp at hcj
              subst hcj
              exact Or.inl hm
          | succ j0 =>
              simp at hcj
              exact hfall j0 (by omega) cj hcj
        · rintro ⟨⟨ci, hci, hacc⟩, hfall⟩
          cases i with
          | zero =>
              simp at hci
              subst hci
              rcases hacc with ⟨hmm, _⟩
              rw [hm] at hmm
              cases hmm
          | succ i0 =>
              refine ⟨i0, rfl, (ih i0).mpr ⟨⟨ci, by simpa using hci, hacc⟩, ?_⟩⟩
              intro j hj cj hcj
              exact hfall (j + 1) (by omega) cj (by simpa using hcj)
      · rcases hg : c.guard with _ | g
        · rw [show select ev (c :: cs) v = Except.ok (SelectResult.selected 0 b0) by
            simp only [select, hm, hg]]
          constructor
          · intro h
            rcases h
            refine ⟨⟨c, by simp, hm, Or.inl hg⟩, ?_⟩
            intro j hj
            omega
          · rintro ⟨⟨ci, hci, hacc⟩, hfall⟩
            cases i with
            | zero =>
                simp at hci
                subst hci
                rcases hacc with ⟨hmm, _⟩
                rw [hm] at hmm
                cases hmm
                rfl
            | succ i0 =>
                rcases hfall 0 (by omega) c (by simp) with hf | ⟨b1, g1, _, hg1, _⟩
                · rw [hm] at hf; cases hf
                · rw [hg] at hg1; cases hg1
        · rcases he : ev g b0 with e | bb
          · rw [show select ev (c :: cs) v = Except.error e by
              simp only [select, hm, hg, he]]
            constructor
            · intro h; cases h
            · rintro ⟨⟨ci, hci, hacc⟩, hfall⟩
              cases i with
              | zero =>
                  simp at hci
                  subst hci
                  rcases hacc with ⟨hmm, hgd⟩
                  rw [hm] at hmm
                  cases hmm
                  rcases hgd with hgn | ⟨g1, hg1, hev⟩
                  · rw [hg] at hgn; cases hgn
                  · rw [hg] at hg1
                    cases hg1
                    rw [he] at hev
                    cases hev
              | succ i0 =>
                  rcases hfall 0 (by omega) c (by simp) with hf | ⟨b1, g1, hb1, hg1, hev⟩
                  · rw [hm] at hf; cases hf
                  · rw [hm] at hb1
                    cases hb1
                    rw [hg] at hg1
                    cases hg1
                    rw [he] at hev
                    cases hev
          · cases bb
            · rw [show select ev (c :: cs) v = bumpSel (select ev cs v) by
                simp only [select, hm, hg, he]]
              rw [bumpSel_eq_selected]
              constructor
              · rintro ⟨i0, rfl, hsel⟩
                rcases (ih i0).mp hsel with ⟨⟨ci, hci, hacc⟩, hfall⟩
                refine ⟨⟨ci, by simpa using hci, hacc⟩, ?_⟩
                intro j hj cj hcj
                cases j with
                | zero =>
                    simp at hcj
                    subst hcj
                    exact Or.inr ⟨b0, g, hm, hg, he⟩
                | succ j0 =>
                    simp at hcj
                    exact hfall j0 (by omega) cj hcj
              · rintro ⟨⟨ci, hci, hacc⟩, hfall⟩
                cases i with
                | zero =>
                    simp at hci
                    subst hci
                    rcases hacc with ⟨hmm, hgd⟩
                    rw [hm] at hmm
                    cases hmm
                    rcases hgd with hgn | ⟨g1, hg1, hev⟩
                    · rw [hg] at hgn; cases hgn
                    · rw [hg] at hg1
                      cases hg1
                      rw [he] at hev
                      cases hev
                | succ i0 =>
                    refine ⟨i0, rfl, (ih i0).mpr ⟨⟨ci, by simpa using hci, hacc⟩, ?_⟩⟩
                    intro j hj cj hcj
                    exact hfall (j + 1) (by omega) cj (by simpa using hcj)
            · rw [show select ev (c :: cs) v = Except.ok (SelectResult.selected 0 b0) by
                simp only [select, hm, hg, he]]
              constructor
              · intro h
                rcases h
                refine ⟨⟨c, by simp, hm, Or.inr ⟨g, hg, he⟩⟩, ?_⟩
                intro j hj
                omega
              · rintro ⟨⟨ci, hci, hacc⟩, hfall⟩
                cases i with
                | zero =>
                    simp at hci
                    subst hci
                    rcases hacc with ⟨hmm, _⟩
                    rw [hm] at hmm
                    cases hmm
                    rfl
                | succ i0 =>
                    rcases hfall 0 (by omega) c (by simp) with hf | ⟨b1, g1, hb1, hg1, hev⟩
                    · rw [hm] at hf; cases hf
                    · rw [hm] at hb1
                      cases hb1
                      rw [hg] at hg1
                      cases hg1
                      rw [he] at hev
                      cases hev

/-- C1.  For every ordered case list and every subject value, `select`
returns the first case, in declaration order, that both structurally
matches and whose guard (if any) accepts; a case whose guard rejects does
not stop the scan, so a later case can still be selected — as in the
spec's fallthrough example, where the cases
`[(Capture x, guard x > 100), (Capture x, no guard)]` applied to the
subject `5` select the second case with `x` bound to `5`.  (In
`analyze_data` itself a Builder subject aborts earlier, at the guard
`x < 0` of the second case, so the unguarded Builder case is reached only
in a scan whose earlier guards evaluate without failure.) -/
theorem select_first_accepting_case :
    (∀ {γ ε : Type} (ev : γ → Bindings → Except ε Bool)
        (cl : List (Case γ)) (v : Value) (i : Nat) (b : Bindings),
        select ev cl v = Except.ok (SelectResult.selected i b) ↔
          ((∃ ci, cl[i]? = Option.some ci ∧ caseAccepts ev v ci b) ∧
            ∀ j, j < i → ∀ cj, cl[j]? = Option.some cj → caseFalls ev v cj)) ∧
    select gtGuardEval [⟨Pattern.capture "x", Option.some ()⟩,
        ⟨Pattern.capture "x", Option.none⟩] (Value.scalar (Scalar.int 5)) =
      Except.ok (SelectResult.selected 1 [("x", Value.scalar (Scalar.int 5))]) := by
  constructor
  · intro γ ε ev cl v i b
    exact select_selected_iff ev cl v i b
  · simp [select, matchP, gtGuardEval, lookupBind, bumpSel]

/-- C2.  If, while scanning, `select` reaches a case whose guard evaluation
fails, the failure propagates out of `select` to its caller: it is never
treated as the guard returning false and the scan does not continue to
subsequent cases. -/
theorem select_guard_error_prop {γ ε : Type} (ev : γ → Bindings → Except ε Bool)
    (cl : List (Case γ)) (v : Value) (i : Nat) (ci : Case γ) (g : γ)
    (b : Bindings) (e : ε)
    (hci : cl[i]? = Option.some ci)
    (hfall : ∀ j, j < i → ∀ cj, cl[j]? = Option.some cj → caseFalls ev v cj)
    (hb : matchP ci.pattern v = Option.some b)
    (hg : ci.guard = Option.some g)
    (he : ev g b = Except.error e) :
    select ev cl v = Except.error e := by
  induction cl generalizing i with
  | nil => simp at hci
  | cons c cs ih =>
      cases i with
      | zero =>
          simp at hci
          subst hci
          simp only [select, hb, hg, he]
      | succ i0 =>
          have hrec : select ev cs v = Except.error e := by
            refine ih i0 (by simpa using hci) ?_
            intro j hj cj hcj
            exact hfall (j + 1) (by omega) cj (by simpa using hcj)
          rcases hfall 0 (by omega) c (by simp) with hf | ⟨b1, g1, hb1, hg1, hev⟩
          · simp only [select, hf, hrec]
            rfl
          · simp only [select, hb1, hg1, hev, hrec]
            rfl

/-- Witness for C2: in `analyze_data`'s case list a string subject falls
past the literal `0` case, matches the capture of the second case, and the
guard `x < 0` fails to evaluate; the failure propagates out of `select`. -/
theorem select_guard_error_prop_witness :
    select adGuardEval adCases (Value.scalar (Scalar.str "boom")) =
      Except.error AdGuard.neg := by
  refine select_guard_error_prop adGuardEval adCases (Value.scalar (Scalar.str "boom")) 1
      ⟨Pattern.capture "x", Option.some AdGuard.neg⟩ AdGuard.neg
      [("x", Value.scalar (Scalar.str "boom"))] AdGuard.neg
      (by simp [adCases]) ?_ (by simp [matchP]) rfl (by simp [adGuardEval, lookupBind])
  intro j hj cj hcj
  have hj0 : j = 0 := by omega
  subst hj0
  simp [adCases] at hcj
  rw [← hcj]
  exact Or.inl (by simp [matchP, valueEq, scalarEq])

/-- C3.  A sequence pattern with no rest-capture matches only a sequence
value whose length equals exactly the number of element patterns, and a
sequence pattern with a rest-capture requires the value's length to be at
least the number of fixed element patterns; concretely, the two-capture
pattern matches `[1, 2]` binding both elements and fails on `[1, 2, 3]`. -/
theorem seq_length_exact :
    (∀ (head tail : List Pattern) (xs : List Value) (b : Bindings),
        matchP (Pattern.seq head Option.none tail) (Value.seq xs) = Option.some b →
        xs.length = head.length + tail.length) ∧
    (∀ (head tail : List Pattern) (r : String) (xs : List Value) (b : Bindings),
        matchP (Pattern.seq head (Option.some r) tail) (Value.seq xs) = Option.some b →
        head.length + tail.length ≤ xs.length) ∧
    matchP (Pattern.seq [Pattern.capture "a", Pattern.capture "b"] Option.none [])
      (Value.seq [Value.scalar (Scalar.int 1), Value.scalar (Scalar.int 2)]) =
      Option.some [("a", Value.scalar (Scalar.int 1)), ("b", Value.scalar (Scalar.int 2))] ∧
    matchP (Pattern.seq [Pattern.capture "a", Pattern.capture "b"] Option.none [])
      (Value.seq [Value.scalar (Scalar.int 1), Value.scalar (Scalar.int 2),
        Value.scalar (Scalar.int 3)]) = Option.none := by
  refine ⟨?_, ?_, ?_, ?_⟩
  · intro head tail xs b h
    simp only [matchP] at h
    split at h
    · next hok =>
        simp only [seqLenOk, beq_iff_eq] at hok
        exact hok
    · cases h
  · intro head tail r xs b h
    simp only [matchP] at h
    split at h
    · next hok =>
        simp only [seqLenOk, decide_eq_true_eq] at hok
        exact hok
    · cases h
  · simp [matchP, matchZip, seqLenOk]
  · simp [matchP, matchZip, seqLenOk]

/-- Witness for C3 at a concrete input: the two-capture pattern matched
`[1, 2]`, so that value's length equals the pattern's element count. -/
theorem seq_length_exact_witness :
    ([Value.scalar (Scalar.int 1), Value.scalar (Scalar.int 2)] : List Value).length =
      ([Pattern.capture "a", Pattern.capture "b"] : List Pattern).length +
        ([] : List Pattern).length :=
  seq_length_exact.1 [Pattern.capture "a", Pattern.capture "b"] [] _
    [("a", Value.scalar (Scalar.int 1)), ("b", Value.scalar (Scalar.int 2))]
    (by simp [matchP, matchZip, seqLenOk])

/-- C4.  For a sequence pattern with head patterns, a rest-capture and
tail patterns: when the value is long enough and the head patterns match
the elements from the start while the tail patterns match the elements
from the end, the rest name is bound to the sub-sequence strictly between
them (possibly empty); when the value is shorter than head plus tail, the
result is `NoMatch`. -/
theorem seq_rest_binding :
    (∀ (head tail : List Pattern) (r : String) (xs : List Value) (hb tb : Bindings),
        head.length + tail.length ≤ xs.length →
        matchZip head (xs.take head.length) = Option.some hb →
        matchZip tail (xs.drop (xs.length - tail.length)) = Option.some tb →
        matchP (Pattern.seq head (Option.some r) tail) (Value.seq xs) =
          Option.some (hb ++ [(r, Value.seq ((xs.drop head.length).take
            (xs.length - (head.length + tail.length))))] ++ tb)) ∧
    (∀ (head tail : List Pattern) (r : String) (xs : List Value),
        xs.length < head.length + tail.length →
        matchP (Pattern.seq head (Option.some r) tail) (Value.seq xs) =
          Option.none) := by
  constructor
  · intro head tail r xs hb tb hlen h1 h2
    have hok : seqLenOk (Option.some r) head.length tail.length xs.length = true := by
      simp only [seqLenOk, decide_eq_true_eq]
      exact hlen
    simp only [matchP, hok, if_true, h1, h2]
  · intro head tail r xs hlen
    have hok : seqLenOk (Option.some r) head.length tail.length xs.length = false := by
      simp only [seqLenOk, decide_eq_false_iff_not]
      omega
    simp only [matchP, hok, Bool.false_eq_true, if_false]

/-- Witness for C4 at the spec's concrete inputs: the pattern
`[first, *middle, last]` matches `[1, 2]` binding `middle` to the empty
sub-sequence, and fails on `[1]`. -/
theorem seq_rest_binding_witness :
    matchP (Pattern.seq [Pattern.capture "first"] (Option.some "middle")
        [Pattern.capture "last"])
      (Value.seq [Value.scalar (Scalar.int 1), Value.scalar (Scalar.int 2)]) =
      Option.some ([("first", Value.scalar (Scalar.int 1))] ++
        [("middle", Value.seq [])] ++ [("last", Value.scalar (Scalar.int 2))]) ∧
    matchP (Pattern.seq [Pattern.capture "first"] (Option.some "middle")
        [Pattern.capture "last"])
      (Value.seq [Value.scalar (Scalar.int 1)]) = Option.none := by
  constructor
  · have h := seq_rest_binding.1 [Pattern.capture "first"] [Pattern.capture "last"]
      "middle" [Value.scalar (Scalar.int 1), Value.scalar (Scalar.int 2)]
      [("first", Value.scalar (Scalar.int 1))] [("last", Value.scalar (Scalar.int 2))]
      (by simp) (by simp [matchZip, matchP]) (by simp [matchZip, matchP])
    simpa using h
  · exact seq_rest_binding.2 [Pattern.capture "first"] [Pattern.capture "last"]
      "middle" [Value.scalar (Scalar.int 1)] (by simp)

/-- Every required key of a mapping pattern is found in the subject and
its sub-pattern match succeeds, exactly when the required-key scan
succeeds. -/
lemma matchMapReq_isSome (required : List (Scalar × Pattern))
    (pairs : List (Scalar × Value)) :
    (matchMapReq required pairs).isSome = true ↔
      ∀ kp ∈ required, ∃ w, lookupKey kp.1 pairs = Option.some w ∧
        (matchP kp.2 w).isSome = true := by
  induction required with
  | nil => simp [matchMapReq]
  | cons hd tl ih =>
      obtain ⟨k, sp⟩ := hd
      constructor
      · intro h kp hkp
        rcases hl : lookupKey k pairs with _ | w
        · simp only [matchMapReq, hl] at h
          simp at h
        · rcases hm : matchP sp w with _ | b1
          · simp only [matchMapReq, hl, hm] at h
            simp at h
          · rcases hr : matchMapReq tl pairs with _ | b2
            · simp only [matchMapReq, hl, hm, hr] at h
              simp at h
            · rcases List.mem_cons.mp hkp with rfl | hkp2
              · exact ⟨w, hl, by simp [hm]⟩
              · exact ih.mp (by simp [hr]) kp hkp2
      · intro hall
        obtain ⟨w, hl, hm⟩ := hall (k, sp) (List.mem_cons_self _ _)
        have htl : (matchMapReq tl pairs).isSome = true :=
          ih.mpr (fun kp hkp => hall kp (List.mem_cons_of_mem _ hkp))
        rcases hr : matchMapReq tl pairs with _ | b2
        · rw [hr] at htl
          simp at htl
        · rcases hmm : matchP sp w with _ | b1
          · rw [hmm] at hm
            simp at hm
          · simp [matchMapReq, hl, hmm, hr]

/-- C5.  A mapping pattern matches a mapping value exactly when the value
contains at least the required keys with each sub-pattern satisfied —
extra keys are ignored when no rest-capture is declared (the `user`
pattern matches a subject with an extra `name` key and fails on an
`admin` subject); when a rest-capture is declared it is bound to a new
mapping of every pair of the subject whose key is not required, even when
that mapping is empty. -/
theorem mapping_required_subset :
    (∀ (required : List (Scalar × Pattern)) (rest : Option String)
        (pairs : List (Scalar × Value)),
        (matchP (Pattern.map required rest) (Value.map pairs)).isSome = true ↔
          ∀ kp ∈ required, ∃ w, lookupKey kp.1 pairs = Option.some w ∧
            (matchP kp.2 w).isSome = true) ∧
    matchP (Pattern.map [(Scalar.str "type",
        Pattern.lit (Value.scalar (Scalar.str "user")))] Option.none)
      (Value.map [(Scalar.str "type", Value.scalar (Scalar.str "user")),
        (Scalar.str "name", Value.scalar (Scalar.str "Alice"))]) = Option.some [] ∧
    matchP (Pattern.map [(Scalar.str "type",
        Pattern.lit (Value.scalar (Scalar.str "user")))] Option.none)
      (Value.map [(Scalar.str "type", Value.scalar (Scalar.str "admin"))]) =
      Option.none ∧
    (∀ (required : List (Scalar × Pattern)) (r : String)
        (pairs : List (Scalar × Value)) (b : Bindings),
        matchP (Pattern.map required (Option.some r)) (Value.map pairs) =
          Option.some b →
        ∃ b0, matchMapReq required pairs = Option.some b0 ∧
          b = b0 ++ [(r, Value.map
            (pairs.filter (fun kv => !keyMem kv.1 required)))]) ∧
    matchP (Pattern.map [(Scalar.str "required", Pattern.capture "v")]
        (Option.some "rest"))
      (Value.map [(Scalar.str "required", Value.scalar (Scalar.str "x"))]) =
      Option.some [("v", Value.scalar (Scalar.str "x")), ("rest", Value.map [])] := by
  refine ⟨?_, ?_, ?_, ?_, ?_⟩
  · intro required rest pairs
    rw [← matchMapReq_isSome]
    rcases hr : matchMapReq required pairs with _ | b0
    · cases rest <;> simp [matchP, hr]
    · cases rest <;> simp [matchP, hr]
  · simp [matchP, matchMapReq, lookupKey, valueEq, scalarEq]
  · simp [matchP, matchMapReq, lookupKey, valueEq, scalarEq]
  · intro required r pairs b h
    simp only [matchP] at h
    rcases hr : matchMapReq required pairs with _ | b0
    · rw [hr] at h; cases h
    · rw [hr] at h
      simp only [Option.some.injEq] at h
      exact ⟨b0, rfl, h.symm⟩
  · simp [matchP, matchMapReq, lookupKey, keyMem, scalarEq, List.filter]

/-- Witness for C5 at a concrete input: the rest-capture of the
one-required-key mapping pattern is bound to the (here empty) mapping of
the subject's non-required pairs. -/
theorem mapping_required_subset_witness :
    ∃ b0, matchMapReq [(Scalar.str "required", Pattern.capture "v")]
        [(Scalar.str "required", Value.scalar (Scalar.str "x"))] =
        Option.some b0 ∧
      ([("v", Value.scalar (Scalar.str "x")), ("rest", Value.map [])] : Bindings) =
        b0 ++ [("rest", Value.map
          ([(Scalar.str "required", Value.scalar (Scalar.str "x"))].filter
            (fun kv => !keyMem kv.1 [(Scalar.str "required", Pattern.capture "v")])))] :=
  mapping_required_subset.2.2.2.1 [(Scalar.str "required", Pattern.capture "v")]
    "rest" [(Scalar.str "required", Value.scalar (Scalar.str "x"))]
    [("v", Value.scalar (Scalar.str "x")), ("rest", Value.map [])]
    (by simp [matchP, matchMapReq, lookupKey, keyMem, scalarEq, List.filter])

/-- C6.  A literal pattern matches a value exactly when the value equals
the literal under structural equality — scalar kind and payload equal —
with the single cross-kind exception that int and float compare by equal
magnitude: matching `0.0` against the literal `0` succeeds, while a scalar
of any other kind, such as the boolean `true`, does not match an int
literal of equal magnitude. -/
theorem literal_match_equality :
    (∀ a b : Scalar, scalarEq a b = true ↔
      (a = b ∨ ∃ m q, ((a = Scalar.int m ∧ b = Scalar.float q) ∨
        (a = Scalar.float q ∧ b = Scalar.int m)) ∧ (m : Rat) = q)) ∧
    (∀ a b : Scalar, matchP (Pattern.lit (Value.scalar a)) (Value.scalar b) =
      if scalarEq b a then Option.some [] else Option.none) ∧
    matchP (Pattern.lit (Value.scalar (Scalar.int 0)))
      (Value.scalar (Scalar.float 0)) = Option.some [] ∧
    matchP (Pattern.lit (Value.scalar (Scalar.int 1)))
      (Value.scalar (Scalar.bool true)) = Option.none := by
  refine ⟨?_, ?_, ?_, ?_⟩
  · intro a b
    cases a <;> cases b <;> simp [scalarEq]
    exact eq_comm
  · intro a b
    simp [matchP, valueEq]
  · simp [matchP, valueEq, scalarEq]
  · simp [matchP, valueEq, scalarEq]

/-- C7.  A typed-capture pattern `TypedCapture(k, n)` returns
`Matched(n -> v)` exactly when the value's runtime kind equals `k`, with
no coercion between kinds: a bool does not satisfy a typed capture
expecting kind int, and an int does not satisfy one expecting float. -/
theorem typed_capture_kind :
    (∀ (k : VKind) (n : String) (v : Value),
        matchP (Pattern.typedCapture k n) v = Option.some [(n, v)] ↔
          Value.kind v = k) ∧
    (∀ (k : VKind) (n : String) (v : Value),
        matchP (Pattern.typedCapture k n) v = Option.none ↔ Value.kind v ≠ k) ∧
    matchP (Pattern.typedCapture VKind.int "n") (Value.scalar (Scalar.bool true)) =
      Option.none ∧
    matchP (Pattern.typedCapture VKind.float "n") (Value.scalar (Scalar.int 3)) =
      Option.none := by
  refine ⟨?_, ?_, ?_, ?_⟩
  · intro k n v
    by_cases h : Value.kind v = k <;> simp [matchP, h]
  · intro k n v
    by_cases h : Value.kind v = k <;> simp [matchP, h]
  · simp [matchP, Value.kind]
  · simp [matchP, Value.kind]

/-- Every named field of a record pattern is found in the subject's fields
and its sub-pattern match succeeds, exactly when the field scan
succeeds. -/
lemma matchRecFields_isSome (fps : List (String × Pattern))
    (fvs : List (String × Value)) :
    (matchRecFields fps fvs).isSome = true ↔
      ∀ fp ∈ fps, ∃ w, lookupField fp.1 fvs = Option.some w ∧
        (matchP fp.2 w).isSome = true := by
  induction fps with
  | nil => simp [matchRecFields]
  | cons hd tl ih =>
      obtain ⟨fn, sp⟩ := hd
      constructor
      · intro h fp hfp
        rcases hl : lookupField fn fvs with _ | w
        · simp only [matchRecFields, hl] at h
          simp at h
        · rcases hm : matchP sp w with _ | b1
          · simp only [matchRecFields, hl, hm] at h
            simp at h
          · rcases hr : matchRecFields tl fvs with _ | b2
            · simp only [matchRecFields, hl, hm, hr] at h
              simp at h
            · rcases List.mem_cons.mp hfp with rfl | hfp2
              · exact ⟨w, hl, by simp [hm]⟩
              · exact ih.mp (by simp [hr]) fp hfp2
      · intro hall
        obtain ⟨w, hl, hm⟩ := hall (fn, sp) (List.mem_cons_self _ _)
        have htl : (matchRecFields tl fvs).isSome = true :=
          ih.mpr (fun fp hfp => hall fp (List.mem_cons_of_mem _ hfp))
        rcases hr : matchRecFields tl fvs with _ | b2
        · rw [hr] at htl
          simp at htl
        · rcases hmm : matchP sp w with _ | b1
          · rw [hmm] at hm
            simp at hm
          · simp [matchRecFields, hl, hmm, hr]

/-- C8.  A record pattern `Record(tag, fields)` matches exactly when the
value is a record whose type tag equals `tag`, every field named in the
pattern is present in the value and satisfies its sub-pattern, and fields
of the value not named in the pattern are ignored; it fails on a tag
mismatch, a missing named field, or any field sub-match failure — as
exercised by the `Point(x=0, y=0)` class pattern. -/
theorem record_pattern_match :
    (∀ (tag : String) (fps : List (String × Pattern)) (t : String)
        (fvs : List (String × Value)),
        (matchP (Pattern.record tag fps) (Value.record t fvs)).isSome = true ↔
          (t = tag ∧ ∀ fp ∈ fps, ∃ w, lookupField fp.1 fvs = Option.some w ∧
            (matchP fp.2 w).isSome = true)) ∧
    (∀ (tag : String) (fps : List (String × Pattern)) (v : Value) (b : Bindings),
        matchP (Pattern.record tag fps) v = Option.some b →
        ∃ t fvs, v = Value.record t fvs ∧ t = tag) ∧
    matchP (Pattern.record "Point" [("x", Pattern.lit (Value.scalar (Scalar.int 0))),
        ("y", Pattern.lit (Value.scalar (Scalar.int 0)))])
      (Value.record "Point" [("x", Value.scalar (Scalar.int 0)),
        ("y", Value.scalar (Scalar.int 0))]) = Option.some [] ∧
    matchP (Pattern.record "Point" [("x", Pattern.capture "v")])
      (Value.record "Builder" [("x", Value.scalar (Scalar.int 0))]) =
      Option.none := by
  refine ⟨?_, ?_, ?_, ?_⟩
  · intro tag fps t fvs
    by_cases h : t = tag
    · subst h
      simp [matchP, matchRecFields_isSome]
    · simp [matchP, h]
  · intro tag fps v b hmb
    cases v with
    | scalar s => simp [matchP] at hmb
    | seq xs => simp [matchP] at hmb
    | map ps => simp [matchP] at hmb
    | record t fvs =>
        by_cases h : t = tag
        · exact ⟨t, fvs, rfl, h⟩
        · rw [show matchP (Pattern.record tag fps) (Value.record t fvs) =
              Option.none by simp [matchP, h]] at hmb
          cases hmb
  · simp [matchP, matchRecFields, lookupField, valueEq, scalarEq]
  · simp [matchP]

/-- Witness for C8 at a concrete input: a matched `Builder(value=v)` class
pattern forces the subject to be a record tagged `Builder`. -/
theorem record_pattern_match_witness :
    ∃ t fvs, Value.record "Builder" [("value", Value.scalar (Scalar.int 150))] =
      Value.record t fvs ∧ t = "Builder" :=
  record_pattern_match.2.1 "Builder" [("value", Pattern.capture "v")] _
    [("v", Value.scalar (Scalar.int 150))]
    (by simp [matchP, matchRecFields, lookupField])

/-- A subject of `analyze_data` whose kind is not int, float or bool slips
past the literal `0` case, is captured by the second case, and fails its
guard `x < 0`; the failure propagates out of the whole call. -/
lemma analyzeData_nonnum (v : Value)
    (h : Value.kind v ≠ VKind.int ∧ Value.kind v ≠ VKind.float ∧
      Value.kind v ≠ VKind.bool) :
    analyzeData v = Except.error AdGuard.neg := by
  cases v with
  | scalar s =>
      cases s with
      | int n => exact absurd rfl h.1
      | float q => exact absurd rfl h.2.1
      | bool b => exact absurd rfl h.2.2
      | str s =>
          simp [analyzeData, select, adCases, matchP, valueEq, scalarEq,
            adGuardEval, lookupBind, bumpSel]
      | none =>
          simp [analyzeData, select, adCases, matchP, valueEq, scalarEq,
            adGuardEval, lookupBind, bumpSel]
  | seq xs =>
      simp [analyzeData, select, adCases, matchP, valueEq, scalarEq,
        adGuardEval, lookupBind, bumpSel]
  | map ps =>
      simp [analyzeData, select, adCases, matchP, valueEq, scalarEq,
        adGuardEval, lookupBind, bumpSel]
  | record t fs =>
      simp [analyzeData, select, adCases, matchP, valueEq, scalarEq,
        adGuardEval, lookupBind, bumpSel]

/-- C9.  Every string, sequence, mapping or record subject of
`analyze_data` fails with a guard-evaluation error raised while the guard
`x < 0` of the second case is evaluated, so the later sequence, mapping,
class, or-pattern, as-pattern and wildcard cases are unreachable for such
subjects; `analyze_data` returns normally only for subjects of int, float
or bool kind. -/
theorem analyzeData_guard_abort (v : Value) :
    ((Value.kind v = VKind.str ∨ Value.kind v = VKind.seq ∨
        Value.kind v = VKind.map ∨ Value.kind v = VKind.record) →
      analyzeData v = Except.error AdGuard.neg) ∧
    (∀ r, analyzeData v = Except.ok r →
      Value.kind v = VKind.int ∨ Value.kind v = VKind.float ∨
        Value.kind v = VKind.bool) := by
  constructor
  · intro hk
    rcases hk with h | h | h | h <;>
      exact analyzeData_nonnum v (by rw [h]; exact ⟨by simp, by simp, by simp⟩)
  · intro r hr
    by_contra hc
    push_neg at hc
    rw [analyzeData_nonnum v hc] at hr
    cases hr

/-- Witness for C9 at a concrete input: the string subject `"start"`
(which `analyze_data`'s or-pattern case would otherwise report) aborts
with the guard failure of the second case. -/
theorem analyzeData_guard_abort_witness :
    analyzeData (Value.scalar (Scalar.str "start")) = Except.error AdGuard.neg :=
  (analyzeData_guard_abort (Value.scalar (Scalar.str "start"))).1 (Or.inl rfl)

/-- Counterexample for C1's `analyze_data` illustration: a Builder record
whose value is 50 — not greater than 100 — is not reported by the second,
unguarded Builder case (index 9): the call fails earlier, with the guard
evaluation failure of the `x < 0` guard of case index 1. -/
theorem analyzeData_builder_guard_error :
    analyzeData (Value.record "Builder" [("value", Value.scalar (Scalar.int 50))]) =
      Except.error AdGuard.neg ∧
    analyzeData (Value.record "Builder" [("value", Value.scalar (Scalar.int 50))]) ≠
      Except.ok (SelectResult.selected 9 [("v", Value.scalar (Scalar.int 50))]) := by
  have h : analyzeData (Value.record "Builder"
      [("value", Value.scalar (Scalar.int 50))]) = Except.error AdGuard.neg :=
    analyzeData_nonnum _ ⟨by simp [Value.kind], by simp [Value.kind], by simp [Value.kind]⟩
  exact ⟨h, by rw [h]; intro hc; cases hc⟩

/-- Splitting a list as prefix, middle slice and suffix reassembles to the
original list when the prefix and suffix fit. -/
lemma take_mid_drop (xs : List Value) (hl tl : Nat) (h : hl + tl ≤ xs.length) :
    (xs.take hl ++ (xs.drop hl).take (xs.length - (hl + tl))) ++
      xs.drop (xs.length - tl) = xs := by
  rw [List.append_assoc]
  have h1 : xs.drop (xs.length - tl) =
      (xs.drop hl).drop (xs.length - (hl + tl)) := by
    rw [List.drop_drop]
    congr 1
    omega
  rw [h1, List.take_append_drop, List.take_append_drop]

/-- C10.  Matching builds rest-capture bindings out of newly built
containers rather than consuming the subject: a sequence rest-capture is
bound to a copy of the middle slice, and prefix, slice and suffix
reassemble to the untouched subject; a mapping rest-capture is bound to
a new mapping each of whose pairs is still a pair of the subject.  (In
this embedding values are immutable, so the subject itself is the same
value before and after every `match` or `select` call.) -/
theorem match_leaves_subject_intact :
    (∀ (head tail : List Pattern) (r : String) (xs : List Value) (b : Bindings),
        matchP (Pattern.seq head (Option.some r) tail) (Value.seq xs) =
          Option.some b →
        ∃ hb tb mid, b = hb ++ [(r, Value.seq mid)] ++ tb ∧
          (xs.take head.length ++ mid) ++ xs.drop (xs.length - tail.length) = xs) ∧
    (∀ (required : List (Scalar × Pattern)) (r : String)
        (pairs : List (Scalar × Value)) (b : Bindings),
        matchP (Pattern.map required (Option.some r)) (Value.map pairs) =
          Option.some b →
        ∃ b0 rp, b = b0 ++ [(r, Value.map rp)] ∧ ∀ kv ∈ rp, kv ∈ pairs) := by
  constructor
  · intro head tail r xs b h
    simp only [matchP] at h
    split at h
    · next hok =>
        have hlen : head.length + tail.length ≤ xs.length := by
          simpa [seqLenOk] using hok
        split at h
        · next hb tb heq1 heq2 =>
            simp only [Option.some.injEq] at h
            exact ⟨hb, tb, _, h.symm, take_mid_drop xs _ _ hlen⟩
        · cases h
    · cases h
  · intro required r pairs b h
    simp only [matchP] at h
    rcases hr : matchMapReq required pairs with _ | b0
    · rw [hr] at h
      cases h
    · rw [hr] at h
      simp only [Option.some.injEq] at h
      refine ⟨b0, _, h.symm, ?_⟩
      intro kv hkv
      exact List.mem_of_mem_filter hkv

/-- Witness for C10 at a concrete input: matching `[first, *middle, last]`
against `[1, 2]` binds the rest name to a fresh empty sequence, and
prefix, middle and suffix reassemble to the unchanged subject. -/
theorem match_leaves_subject_intact_witness :
    ∃ hb tb mid,
      ([("first", Value.scalar (Scalar.int 1)), ("middle", Value.seq []),
        ("last", Value.scalar (Scalar.int 2))] : Bindings) =
        hb ++ [("middle", Value.seq mid)] ++ tb ∧
      (([Value.scalar (Scalar.int 1), Value.scalar (Scalar.int 2)] : List Value).take
          ([Pattern.capture "first"] : List Pattern).length ++ mid) ++
        ([Value.scalar (Scalar.int 1), Value.scalar (Scalar.int 2)] : List Value).drop
          (([Value.scalar (Scalar.int 1), Value.scalar (Scalar.int 2)] : List Value).length -
            ([Pattern.capture "last"] : List Pattern).length) =
        [Value.scalar (Scalar.int 1), Value.scalar (Scalar.int 2)] :=
  match_leaves_subject_intact.1 [Pattern.capture "first"] [Pattern.capture "last"]
    "middle" [Value.scalar (Scalar.int 1), Value.scalar (Scalar.int 2)]
    [("first", Value.scalar (Scalar.int 1)), ("middle", Value.seq []),
      ("last", Value.scalar (Scalar.int 2))]
    (by simp [matchP, matchZip, seqLenOk])
